import Mathlib

/-!
Verification of the salesforce-layout-editor core model.

The two source files (`real_drag_drop.py`, `simple_drag_editor.py`) share the
same data model (`LayoutField`, `LayoutSection` dataclasses) and seed layout.
This development embeds the model and the mutation operations
(`update_field_order`, `swap_fields`, the Mode-B selection click handler,
reset) as executable Lean definitions and proves or refutes the spec claims.

Conventions of the embedding:
* Python's in-place mutation becomes functional state passing: each operation
  returns the new section list / editor state.
* A Python exception (`StopIteration` from `next(...)` with no match) is
  modelled with `Option` (`none` = the operation raised); for
  `update_field_order`, where mutation happens before the raise point, the
  result carries the partially-updated fields together with a success flag.
* `list.sort(key=lambda x: x.position)` is a stable ascending sort; it is
  embedded as insertion sort with a non-strict comparison, which is stable,
  so it agrees with Python's stable sort on every input.
-/

namespace SalesforceLayout

/-- The `LayoutField` dataclass (identical in both source files). -/
structure LayoutField where
  id : String
  label : String
  value : String
  field_type : String
  visible : Bool
  position : Nat
  deriving DecidableEq

/-- The `LayoutSection` dataclass (identical in both source files). -/
structure LayoutSection where
  name : String
  title : String
  fields : List LayoutField
  expanded : Bool
  deriving DecidableEq

/-- Comparison used by `section.fields.sort(key=lambda x: x.position)`. -/
def posLE (a b : LayoutField) : Prop := a.position ≤ b.position

instance : DecidableRel posLE := fun a b => Nat.decLe a.position b.position

instance : IsTotal LayoutField posLE := ⟨fun a b => Nat.le_total a.position b.position⟩

instance : IsTrans LayoutField posLE := ⟨fun _ _ _ h h2 => Nat.le_trans h h2⟩

/-- `section.fields.sort(key=lambda x: x.position)`: stable ascending sort by
position (insertion sort with `≤` is stable, like Python's `list.sort`). -/
def sortByPosition (l : List LayoutField) : List LayoutField :=
  List.insertionSort posLE l

/-- The visibility filter used throughout both files:
`f.visible and f.label` (Python truthiness: the label must be non-empty). -/
def visP (f : LayoutField) : Bool := f.visible && (f.label != "")

/-- The visible-field listing of `render_section`
(real_drag_drop.py lines 402-404, simple_drag_editor.py lines 416-417):
`sorted_fields = sorted(section.fields, key=lambda x: x.position)` followed by
`visible_fields = [f for f in sorted_fields if f.visible and f.label]`. -/
def visible_fields (s : LayoutSection) : List LayoutField :=
  (sortByPosition s.fields).filter visP

/-! ## Seed layout from `RealDragDropEditor.load_original_layout` -/

/-- `account_fields` literal from real_drag_drop.py lines 197-245. -/
def account_fields_real : List LayoutField :=
  [⟨"account_name", "Account Name", "Steed Standard Transport Ltd.", "text", true, 0⟩,
   ⟨"customer_id_us", "Customer Id TMW US", "", "text", true, 1⟩,
   ⟨"enterprise_account", "Enterprise Account Number", "16484517", "text", true, 2⟩,
   ⟨"customer_id_cad", "Customer Id TMW CAD", "Steed Standard Transport - TMWCAN", "text", true, 3⟩,
   ⟨"division", "Division", "PeopleNet/TMW CAD", "text", true, 4⟩,
   ⟨"customer_id_aud", "Customer Id TMW AUD", "", "text", true, 5⟩,
   ⟨"type", "Type", "Customer", "picklist", true, 6⟩,
   ⟨"parent_child", "Parent or Child Account", "Parent", "picklist", true, 7⟩,
   ⟨"account_status", "Account Status TMW", "CUSTOMER-(C) Live Customer", "picklist", true, 8⟩,
   ⟨"timezone", "Account Time Zone (US & CA)", "Eastern Standard Time", "picklist", true, 9⟩,
   ⟨"tags", "Tags", "", "text", true, 10⟩,
   ⟨"phone", "Phone TMW", "(519) 271-9924 x230", "phone", true, 11⟩,
   ⟨"lead_source", "Lead Source", "", "text", true, 12⟩,
   ⟨"fax", "Fax TMW", "", "phone", true, 13⟩,
   ⟨"trimble_customer", "Trimble TMS Customer", "☐", "checkbox", true, 14⟩,
   ⟨"website", "Website", "http://www.ssl.ca/", "url", true, 15⟩,
   ⟨"global_id", "Global ID", "G1005495", "text", true, 16⟩,
   ⟨"lead_source_detail", "Lead Source Detail", "", "text", true, 17⟩,
   ⟨"customer_profile", "Customer Profile", "", "text", true, 18⟩,
   ⟨"support_maintenance", "Support & Maintenance", "18%", "percentage", true, 19⟩,
   ⟨"account_stage_us", "Account Stage TMW US", "", "text", true, 20⟩,
   ⟨"drive_link", "Customer Drive Link", "", "url", true, 21⟩,
   ⟨"account_stage_aud", "Account Stage TMW AUD", "", "text", true, 22⟩,
   ⟨"account_stage_cad", "Account Stage TMW CAD", "Customer", "picklist", true, 23⟩]

/-- `parent_fields` literal from real_drag_drop.py lines 248-253. -/
def parent_fields_real : List LayoutField :=
  [⟨"parent_us", "Parent Account TMW US", "", "text", true, 0⟩,
   ⟨"parent_cad", "Parent Account TMW CAD", "", "text", true, 1⟩,
   ⟨"parent_account", "Parent Account", "", "text", true, 2⟩,
   ⟨"parent_netsuite", "Parent NetSuite Id", "", "text", true, 3⟩]

/-- `success_fields` literal from real_drag_drop.py lines 256-269. -/
def success_fields_real : List LayoutField :=
  [⟨"sentiment", "Customer Sentiment", "Average", "picklist", true, 0⟩,
   ⟨"risk_update", "At Risk Update", "", "text", true, 1⟩,
   ⟨"risk_status", "Enterprise Risk Status", "", "text", true, 2⟩,
   ⟨"totango_health", "Totango Customer Health", "Poor", "picklist", true, 3⟩,
   ⟨"risk_reason", "Enterprise Risk Reason", "", "text", true, 4⟩,
   ⟨"empty1", "", "", "text", false, 5⟩,
   ⟨"risk_severity", "Enterprise At-Risk Severity Level", "", "text", true, 6⟩,
   ⟨"empty2", "", "", "text", false, 7⟩,
   ⟨"product_risk", "Enterprise Product At Risk", "", "text", true, 8⟩,
   ⟨"empty3", "", "", "text", false, 9⟩,
   ⟨"segmentation", "Segmentation Tier", "Tier 5 CS Engage", "picklist", true, 10⟩,
   ⟨"empty4", "", "", "text", false, 11⟩]

/-- The `account_info` section of the real editor's seed. -/
def account_info_real : LayoutSection :=
  ⟨"account_info", "Account Information", account_fields_real, true⟩

/-- The `parent_hierarchy` section of the real editor's seed. -/
def parent_hierarchy_real : LayoutSection :=
  ⟨"parent_hierarchy", "Parent Hierarchy", parent_fields_real, true⟩

/-- The `customer_success` section of the real editor's seed. -/
def customer_success_real : LayoutSection :=
  ⟨"customer_success", "Customer Success", success_fields_real, true⟩

/-- `st.session_state.sections` seeded by real_drag_drop.py lines 271-275. -/
def seed_sections_real : List LayoutSection :=
  [account_info_real, parent_hierarchy_real, customer_success_real]

/-! ## Seed layout from `SimpleDragEditor.load_original_layout` -/

/-- `account_fields` literal from simple_drag_editor.py lines 223-271. -/
def account_fields_simple : List LayoutField :=
  [⟨"account_name", "Account Name", "Steed Standard Transport Ltd.", "text", true, 0⟩,
   ⟨"customer_id_us", "Customer Id TMW US", "", "text", true, 1⟩,
   ⟨"enterprise_account", "Enterprise Account Number", "16484517", "text", true, 2⟩,
   ⟨"customer_id_cad", "Customer Id TMW CAD", "Steed Standard Transport - TMWCAN", "text", true, 3⟩,
   ⟨"division", "Division", "PeopleNet/TMW CAD", "text", true, 4⟩,
   ⟨"customer_id_aud", "Customer Id TMW AUD", "", "text", true, 5⟩,
   ⟨"type", "Type", "Customer", "picklist", true, 6⟩,
   ⟨"parent_child", "Parent or Child Account", "Parent", "picklist", true, 7⟩,
   ⟨"account_status", "Account Status TMW", "CUSTOMER-(C) Live Customer", "picklist", true, 8⟩,
   ⟨"timezone", "Account Time Zone (US & CA)", "Eastern Standard Time", "picklist", true, 9⟩,
   ⟨"tags", "Tags", "", "text", true, 10⟩,
   ⟨"phone", "Phone TMW", "(519) 271-9924 x230", "phone", true, 11⟩,
   ⟨"lead_source", "Lead Source", "", "text", true, 12⟩,
   ⟨"fax", "Fax TMW", "", "phone", true, 13⟩,
   ⟨"trimble_customer", "Trimble TMS Customer", "☐", "checkbox", true, 14⟩,
   ⟨"website", "Website", "http://www.ssl.ca/", "url", true, 15⟩,
   ⟨"global_id", "Global ID", "G1005495", "text", true, 16⟩,
   ⟨"lead_source_detail", "Lead Source Detail", "", "text", true, 17⟩,
   ⟨"customer_profile", "Customer Profile", "", "text", true, 18⟩,
   ⟨"support_maintenance", "Support & Maintenance", "18%", "percentage", true, 19⟩,
   ⟨"account_stage_us", "Account Stage TMW US", "", "text", true, 20⟩,
   ⟨"drive_link", "Customer Drive Link", "", "url", true, 21⟩,
   ⟨"account_stage_aud", "Account Stage TMW AUD", "", "text", true, 22⟩,
   ⟨"account_stage_cad", "Account Stage TMW CAD", "Customer", "picklist", true, 23⟩]

/-- `parent_fields` literal from simple_drag_editor.py lines 274-279. -/
def parent_fields_simple : List LayoutField :=
  [⟨"parent_us", "Parent Account TMW US", "", "text", true, 0⟩,
   ⟨"parent_cad", "Parent Account TMW CAD", "", "text", true, 1⟩,
   ⟨"parent_account", "Parent Account", "", "text", true, 2⟩,
   ⟨"parent_netsuite", "Parent NetSuite Id", "", "text", true, 3⟩]

/-- `success_fields` literal from simple_drag_editor.py lines 282-295. -/
def success_fields_simple : List LayoutField :=
  [⟨"sentiment", "Customer Sentiment", "Average", "picklist", true, 0⟩,
   ⟨"risk_update", "At Risk Update", "", "text", true, 1⟩,
   ⟨"risk_status", "Enterprise Risk Status", "", "text", true, 2⟩,
   ⟨"totango_health", "Totango Customer Health", "Poor", "picklist", true, 3⟩,
   ⟨"risk_reason", "Enterprise Risk Reason", "", "text", true, 4⟩,
   ⟨"empty1", "", "", "text", false, 5⟩,
   ⟨"risk_severity", "Enterprise At-Risk Severity Level", "", "text", true, 6⟩,
   ⟨"empty2", "", "", "text", false, 7⟩,
   ⟨"product_risk", "Enterprise Product At Risk", "", "text", true, 8⟩,
   ⟨"empty3", "", "", "text", false, 9⟩,
   ⟨"segmentation", "Segmentation Tier", "Tier 5 CS Engage", "picklist", true, 10⟩,
   ⟨"empty4", "", "", "text", false, 11⟩]

/-- The `account_info` section of the simple editor's seed. -/
def account_info_simple : LayoutSection :=
  ⟨"account_info", "Account Information", account_fields_simple, true⟩

/-- The `parent_hierarchy` section of the simple editor's seed. -/
def parent_hierarchy_simple : LayoutSection :=
  ⟨"parent_hierarchy", "Parent Hierarchy", parent_fields_simple, true⟩

/-- The `customer_success` section of the simple editor's seed. -/
def customer_success_simple : LayoutSection :=
  ⟨"customer_success", "Customer Success", success_fields_simple, true⟩

/-- `st.session_state.sections` seeded by simple_drag_editor.py lines 297-301. -/
def seed_sections_simple : List LayoutSection :=
  [account_info_simple, parent_hierarchy_simple, customer_success_simple]

/-! ## Reset (simple_drag_editor.py `render_controls`, lines 347-352)

The Reset button sets `st.session_state.sections = []`,
`st.session_state.selected_field = None` and calls `load_original_layout`,
which repopulates `sections` with the seed exactly when the list is empty. -/

/-- Mode-B pending selection: `st.session_state.selected_field`, a
`(section.name, field.label, field.id)` triple or `None`. -/
abbrev Selection := Option (String × String × String)

/-- Editor session state relevant to the model: the section list and the
pending Mode-B selection. -/
structure EditorState where
  sections : List LayoutSection
  selected : Selection
  deriving DecidableEq

/-- `SimpleDragEditor.load_original_layout` (lines 219-301): repopulates the
section list with the seed when (and only when) it is currently empty. -/
def load_original_layout (sections : List LayoutSection) : List LayoutSection :=
  if sections.isEmpty then seed_sections_simple else sections

/-- The Reset control (simple_drag_editor.py lines 347-352): clear the section
list, clear the pending selection, then reload the original layout. -/
def reset (st : EditorState) : EditorState :=
  { sections := load_original_layout [], selected := none }

/-! ## Mode-A reorder: `RealDragDropEditor.update_field_order` (lines 294-311)

The drag widget hands back the rendered items (HTML strings built by
`create_field_item`) in their new visual order.  `update_field_order` parses
the field id out of each item (`'data-field-id="' in item_html`, then
`item_html.find`/string slicing), assigns `position = i` to the field found
by `next(f for f in section.fields if f.id == field_id)`, and finally
re-sorts the section's field list by position. -/

/-- The search pattern `'data-field-id="'` (15 characters, hence the `+ 15`
in the source). -/
def markerChars : List Char := "data-field-id=\"".toList

/-- Python `s.find(pat)` on character lists: index of the first occurrence of
`pat` as a contiguous substring, `none` when absent (Python returns -1). -/
def findSub (pat : List Char) : List Char → Option Nat
  | [] => if pat.isEmpty then some 0 else none
  | c :: rest =>
    if pat.isPrefixOf (c :: rest) then some 0
    else (findSub pat rest).map (· + 1)

/-- Index of the first occurrence of character `c`, `none` when absent. -/
def findCharIdx (c : Char) : List Char → Option Nat
  | [] => none
  | a :: rest => if a == c then some 0 else (findCharIdx c rest).map (· + 1)

/-- Python `s.find(c, start)`: first index `≥ start` holding `c`. -/
def findCharFrom (s : List Char) (c : Char) (start : Nat) : Option Nat :=
  (findCharIdx c (s.drop start)).map (· + start)

/-- Python slice `s[start:stop]` for non-negative bounds. -/
def slice (s : List Char) (start stop : Nat) : List Char :=
  (s.drop start).take (stop - start)

/-- The id-extraction step of `update_field_order` (lines 300-303): if the
marker occurs, take the characters from just after it up to the next double
quote (Python's `find` returns -1 when there is no closing quote, making the
slice `item[start:-1]`, i.e. up to the last character). -/
def extractFieldId (item : List Char) : Option String :=
  match findSub markerChars item with
  | none => none
  | some idx =>
    match findCharFrom item '"' (idx + 15) with
    | some stop => some (String.mk (slice item (idx + 15) stop))
    | none => some (String.mk (slice item (idx + 15) (item.length - 1)))

/-- The `new_order` list built by the extraction loop (lines 297-304): items
without a recoverable id are skipped. -/
def extractOrder (items : List (List Char)) : List String :=
  items.filterMap extractFieldId

/-- `field = next(f for f in section.fields if f.id == field_id)` followed by
`field.position = i`: mutate the first field with the given id; `none` when
no field matches (Python raises `StopIteration`). -/
def setPosFirst (fields : List LayoutField) (fid : String) (p : Nat) :
    Option (List LayoutField) :=
  match fields with
  | [] => none
  | f :: rest =>
    if f.id = fid then some ({ f with position := p } :: rest)
    else (setPosFirst rest fid p).map (f :: ·)

/-- The `for i, field_id in enumerate(new_order)` loop (lines 307-309).
Returns the field list after the loop and `true`, or — when a lookup raises —
the fields as mutated so far and `false` (the exception aborts the loop). -/
def applyOrder (fields : List LayoutField) (order : List String) (i : Nat) :
    List LayoutField × Bool :=
  match order with
  | [] => (fields, true)
  | fid :: rest =>
    match setPosFirst fields fid i with
    | none => (fields, false)
    | some fields2 => applyOrder fields2 rest (i + 1)

/-- `RealDragDropEditor.update_field_order` (lines 294-311).  On success the
fields are re-sorted by position; when a recovered id matches no field, the
exception propagates before the sort, leaving the partially updated list
(second component `false`). -/
def update_field_order (s : LayoutSection) (sorted_items : List (List Char)) :
    LayoutSection × Bool :=
  match applyOrder s.fields (extractOrder sorted_items) 0 with
  | (fields2, true) => ({ s with fields := sortByPosition fields2 }, true)
  | (fields2, false) => ({ s with fields := fields2 }, false)

/-- The `display_value` computation of `create_field_item` (lines 279-283):
url and phone values become anchors, empty values render as "--". -/
def displayValue (f : LayoutField) : String :=
  if f.field_type = "url" ∧ f.value ≠ "" then
    "<a href=\"" ++ f.value ++ "\" target=\"_blank\">" ++ f.value ++ "</a>"
  else if f.field_type = "phone" ∧ f.value ≠ "" then
    "<a href=\"tel:" ++ f.value ++ "\">" ++ f.value ++ "</a>"
  else if f.value ≠ "" then f.value else "--"

/-- The template text of `create_field_item` before the embedded field id
(a newline, the 8-space indent, `<div ` and the identity marker). -/
def itemHead : List Char := "\n        <div data-field-id=\"".toList

/-- The template text of `create_field_item` after the embedded field id; it
begins with the closing double quote of the `data-field-id` attribute. -/
def itemTail (f : LayoutField) : List Char :=
  '"' ::
    (">\n            <div class=\"field-label\">\n                <span><span class=\"drag-handle\">⋮⋮</span> ".toList
      ++ f.label.toList
      ++ "</span>\n            </div>\n            <div class=\"field-value\">".toList
      ++ (displayValue f).toList
      ++ "</div>\n        </div>\n        ".toList)

/-- `RealDragDropEditor.create_field_item` (lines 277-292): the rendered
sortable item for a field, carrying the field id in a `data-field-id`
attribute. -/
def create_field_item (f : LayoutField) : List Char :=
  itemHead ++ f.id.toList ++ itemTail f

/-! ## Mode-B swap: `SimpleDragEditor.swap_fields` (lines 303-311) -/

/-- `next(f for f in section.fields if f.id == fid)` as a lookup. -/
def findField (fields : List LayoutField) (fid : String) : Option LayoutField :=
  fields.find? (fun f => f.id == fid)

/-- The body of `swap_fields` for the matched section (lines 307-310): look
up both fields (raising `StopIteration`, i.e. `none`, if either is absent —
the raise happens before any mutation), exchange their position values, then
re-sort.  The two `setPosFirst` calls perform the tuple assignment
`field1.position, field2.position = field2.position, field1.position`; they
cannot fail because the two lookups just succeeded. -/
def swapInSection (s : LayoutSection) (f1 f2 : String) : Option LayoutSection :=
  match findField s.fields f1 with
  | none => none
  | some field1 =>
    match findField s.fields f2 with
    | none => none
    | some field2 =>
      match setPosFirst s.fields f1 field2.position with
      | none => none
      | some fs1 =>
        match setPosFirst fs1 f2 field1.position with
        | none => none
        | some fs2 => some { s with fields := sortByPosition fs2 }

/-- `SimpleDragEditor.swap_fields` (lines 303-311): find the first section
with the given name, swap inside it, `break`.  When no section matches, the
loop completes silently and nothing changes (no error is raised). -/
def swap_fields : List LayoutSection → String → String → String →
    Option (List LayoutSection)
  | [], _, _, _ => some []
  | s :: rest, section_name, f1, f2 =>
    if s.name = section_name then (swapInSection s f1 f2).map (· :: rest)
    else (swap_fields rest section_name f1 f2).map (s :: ·)

/-- Two successive invocations of `swap_fields` with the same arguments (the
second runs only if the first did not raise). -/
def swapFieldsTwice (sections : List LayoutSection)
    (section_name f1 f2 : String) : Option (List LayoutSection) :=
  (swap_fields sections section_name f1 f2).bind
    (fun secs2 => swap_fields secs2 section_name f1 f2)

/-! ## Mode-B selection: drag-handle click of `SimpleDragEditor.render_field`
(lines 460-474) -/

/-- The drag-handle click handler: with a pending selection in the same
section on a different field id, swap and clear the selection; in every
other case (no pending selection, same field re-selected, or a pending
selection in a different section) record this field as the new pending
selection, `(section.name, field.label, field.id)`. -/
def handle_drag_click (sections : List LayoutSection) (selected : Selection)
    (sectionName : String) (field : LayoutField) :
    Option (List LayoutSection × Selection) :=
  match selected with
  | some (selSection, _selLabel, selId) =>
    if selSection = sectionName ∧ selId ≠ field.id then
      (swap_fields sections sectionName selId field.id).map (fun secs2 => (secs2, none))
    else
      some (sections, some (sectionName, field.label, field.id))
  | none => some (sections, some (sectionName, field.label, field.id))

/-! ## Concrete states used by counterexamples and witnesses -/

/-- The Customer Success seed section after a Mode-A reorder whose input
lists the visible fields in their current order: the eight visible fields
are renumbered 0..7 while the hidden placeholders keep positions 5, 7, 9,
11, creating position ties between hidden and visible fields (the collision
tolerated by design; reachable from the seed by a single drag event). -/
def customer_after_reorder : LayoutSection :=
  (update_field_order customer_success_real
    ((visible_fields customer_success_real).map create_field_item)).1

/-- The visible fields of the seed Parent Hierarchy section in reversed
order: a permutation used to exercise the Mode-A reorder. -/
def revParentFields : List LayoutField :=
  (visible_fields parent_hierarchy_real).reverse

/-- An opaque rendered item carrying no `data-field-id` marker. -/
def junkItem : List Char := "junk".toList

/-! ## Auxiliary definitions used only to state and prove lemmas -/

/-- `noPrefixAlong pat pre s` checks that `pat` is not a prefix of any suffix
of `pre ++ s` that starts inside `pre`.  It reduces by computation even when
`s` is symbolic, as long as every prefix test fails within `pre`'s concrete
characters. -/
def noPrefixAlong (pat : List Char) : List Char → List Char → Bool
  | [], _ => true
  | c :: pre, s => !(pat.isPrefixOf (c :: (pre ++ s))) && noPrefixAlong pat pre s

/-- The per-field effect of the `update_field_order` position loop on a
section whose field ids are duplicate-free: a field whose id occurs in
`order` receives position `i + (index of its id)`, every other field is
untouched. -/
def applyFun (order : List String) (i : Nat) (f : LayoutField) : LayoutField :=
  if f.id ∈ order then { f with position := i + order.indexOf f.id } else f

/-- The section produced by a successful `update_field_order` on a section
with duplicate-free ids, reordered by the ids of `fs` (used to state the
correctness lemma for the Mode-A reorder). -/
def reorderedSection (S : LayoutSection) (fs : List LayoutField) : LayoutSection :=
  { S with fields := sortByPosition (S.fields.map (applyFun (fs.map (fun f => f.id)) 0)) }

/-- The per-field effect of the position exchange in `swap_fields` on a
section with duplicate-free ids: the field with id `a` receives position
`pb`, the field with id `b` receives position `pa`. -/
def swapFn (a b : String) (pa pb : Nat) (f : LayoutField) : LayoutField :=
  if f.id = a then { f with position := pb }
  else if f.id = b then { f with position := pa }
  else f

/-- Replace a section's field list (record-update shorthand used in the
lemmas below). -/
def withFields (s : LayoutSection) (l : List LayoutField) : LayoutSection :=
  { s with fields := l }

/-- The hide/show buttons (real_drag_drop.py lines 427-429 hide,
lines 360-364 unhide; simple_drag_editor.py lines 485-491, 372-376): set the
`visible` flag of the field with the given id, leaving `position` untouched.
Ids are unique within a section, so updating every matching field is the
mutation of the single matching field object. -/
def setVisibility (s : LayoutSection) (fid : String) (v : Bool) : LayoutSection :=
  withFields s (s.fields.map (fun f => if f.id = fid then { f with visible := v } else f))

/-- The Parent Hierarchy seed section after hide(`parent_cad`), a Mode-A
drag completion listing the remaining visible fields (renumbering them
0..2 while the hidden `parent_cad` keeps position 1), and show(`parent_cad`):
a reachable state in which the two VISIBLE fields `parent_cad` and
`parent_account` share position 1. -/
def tiedParentSection : LayoutSection :=
  setVisibility
    ((update_field_order
        (setVisibility parent_hierarchy_real "parent_cad" false)
        ((visible_fields (setVisibility parent_hierarchy_real "parent_cad" false)).map
          create_field_item)).1)
    "parent_cad" true

/-! ## Lemmas about id extraction -/

theorem isPrefixOf_append_self : ∀ (l t : List Char), l.isPrefixOf (l ++ t) = true
  | [], _ => by simp
  | c :: l, t => by simp [List.isPrefixOf, isPrefixOf_append_self l t]

theorem findSub_of_isPrefixOf (pat s : List Char) (h : pat.isPrefixOf s = true) :
    findSub pat s = some 0 := by
  cases s with
  | nil =>
    cases pat with
    | nil => rfl
    | cons c l => simp [List.isPrefixOf] at h
  | cons c rest => simp [findSub, h]

theorem findSub_cons_not (pat : List Char) (c : Char) (s : List Char)
    (h : pat.isPrefixOf (c :: s) = false) :
    findSub pat (c :: s) = (findSub pat s).map (· + 1) := by
  simp [findSub, h]

theorem findSub_append (pat : List Char) :
    ∀ (pre s : List Char), noPrefixAlong pat pre s = true →
      findSub pat (pre ++ s) = (findSub pat s).map (· + pre.length)
  | [], s, _ => by cases h : findSub pat s <;> simp [h]
  | c :: pre, s, h => by
    simp only [noPrefixAlong, Bool.and_eq_true, Bool.not_eq_true'] at h
    rw [List.cons_append, findSub_cons_not pat c (pre ++ s) h.1,
      findSub_append pat pre s h.2]
    cases findSub pat s <;> simp [Nat.add_assoc]

theorem findCharIdx_append (c : Char) :
    ∀ (l r : List Char), c ∉ l → findCharIdx c (l ++ c :: r) = some l.length
  | [], r, _ => by simp [findCharIdx]
  | a :: l, r, h => by
    have hmem : c ∉ l := fun hc => h (List.mem_cons_of_mem a hc)
    have hne : (a == c) = false := by
      refine beq_eq_false_iff_ne.mpr (fun e => h ?_)
      rw [e]
      exact List.mem_cons_self c l
    rw [List.cons_append,
      show findCharIdx c (a :: (l ++ c :: r)) =
        (findCharIdx c (l ++ c :: r)).map (· + 1) by simp [findCharIdx, hne],
      findCharIdx_append c l r hmem]
    rfl

theorem stringMk_toList (s : String) : String.mk s.toList = s := rfl

theorem extractFieldId_create (f : LayoutField) (hq : '"' ∉ f.id.toList) :
    extractFieldId (create_field_item f) = some f.id := by
  have hitem : create_field_item f =
      "\n        <div ".toList ++ (markerChars ++ (f.id.toList ++ itemTail f)) := by
    rw [create_field_item, show itemHead = "\n        <div ".toList ++ markerChars by decide]
    exact List.append_assoc _ _ _
  have hstep := findSub_append markerChars "\n        <div ".toList
    (markerChars ++ (f.id.toList ++ itemTail f)) rfl
  have hfind : findSub markerChars (create_field_item f) = some 14 := by
    rw [hitem, hstep,
      findSub_of_isPrefixOf _ _ (isPrefixOf_append_self markerChars _)]
    rfl
  have hlen : ("\n        <div ".toList ++ markerChars).length = 29 := by decide
  have hdrop : (create_field_item f).drop 29 = f.id.toList ++ itemTail f := by
    rw [hitem, ← List.append_assoc]
    exact List.drop_left' hlen
  have htail : f.id.toList ++ itemTail f =
      f.id.toList ++ '"' :: (itemTail f).tail := rfl
  have hchar : findCharFrom (create_field_item f) '"' 29 =
      some (f.id.toList.length + 29) := by
    rw [findCharFrom, hdrop, htail, findCharIdx_append '"' _ _ hq]
    rfl
  rw [extractFieldId, hfind]
  show (match findCharFrom (create_field_item f) '"' (14 + 15) with
    | some stop => some (String.mk (slice (create_field_item f) (14 + 15) stop))
    | none => some (String.mk (slice (create_field_item f) (14 + 15)
        ((create_field_item f).length - 1)))) = some f.id
  rw [show (14 + 15 : Nat) = 29 from rfl, hchar]
  show some (String.mk (slice (create_field_item f) 29 (f.id.toList.length + 29)))
    = some f.id
  rw [slice, hdrop, Nat.add_sub_cancel, htail,
    List.take_left' (by simp), stringMk_toList]

theorem extractOrder_map_create :
    ∀ (fs : List LayoutField), (∀ f ∈ fs, '"' ∉ f.id.toList) →
      extractOrder (fs.map create_field_item) = fs.map (fun f => f.id)
  | [], _ => rfl
  | f :: fs, h => by
    rw [List.map_cons, extractOrder,
      List.filterMap_cons_some (extractFieldId_create f (h f (List.mem_cons_self f fs))),
      List.map_cons]
    exact congrArg _ (extractOrder_map_create fs fun g hg => h g (List.mem_cons_of_mem f hg))

/-! ## Lemmas about the position-assignment loop -/

theorem setPosFirst_none_id (fields : List LayoutField) (fid : String) (p : Nat)
    (h : ∀ f ∈ fields, f.id ≠ fid) : setPosFirst fields fid p = none := by
  induction fields with
  | nil => rfl
  | cons f rest ih =>
    rw [setPosFirst, if_neg (h f (List.mem_cons_self f rest)),
      ih (fun g hg => h g (List.mem_cons_of_mem f hg))]
    rfl

theorem map_if_id_eq_self (fields : List LayoutField) (fid : String) (p : Nat)
    (h : ∀ f ∈ fields, f.id ≠ fid) :
    fields.map (fun f => if f.id = fid then { f with position := p } else f) = fields := by
  rw [List.map_congr_left (fun f hf => if_neg (h f hf)), List.map_id']

theorem setPosFirst_eq (fields : List LayoutField) (fid : String) (p : Nat)
    (hn : (fields.map (fun f => f.id)).Nodup) (hm : fid ∈ fields.map (fun f => f.id)) :
    setPosFirst fields fid p =
      some (fields.map (fun f => if f.id = fid then { f with position := p } else f)) := by
  induction fields with
  | nil => simp at hm
  | cons f rest ih =>
    rw [List.map_cons, List.nodup_cons] at hn
    rw [List.map_cons]
    by_cases hf : f.id = fid
    · rw [setPosFirst, if_pos hf, if_pos hf,
        map_if_id_eq_self rest fid p
          (fun g hg => fun e => hn.1 (hf ▸ e ▸ List.mem_map_of_mem (fun x => x.id) hg))]
    · rw [List.map_cons, List.mem_cons] at hm
      rw [setPosFirst, if_neg hf, if_neg hf,
        ih hn.2 (hm.resolve_left (fun e => hf e.symm))]
      rfl

theorem map_id_comp_if (fields : List LayoutField) (fid : String) (p : Nat) :
    (fields.map (fun f => if f.id = fid then { f with position := p } else f)).map
        (fun f => f.id) = fields.map (fun f => f.id) := by
  rw [List.map_map]
  refine List.map_congr_left (fun f _ => ?_)
  by_cases hf : f.id = fid <;> simp [hf]

theorem applyOrder_eq :
    ∀ (order : List String) (fields : List LayoutField) (i : Nat),
      (fields.map (fun f => f.id)).Nodup → order.Nodup →
      (∀ a ∈ order, a ∈ fields.map (fun f => f.id)) →
      applyOrder fields order i = (fields.map (applyFun order i), true)
  | [], fields, i, _, _, _ => by
    rw [applyOrder, List.map_id'' (fun f => by simp [applyFun]) fields]
  | fid :: rest, fields, i, hn, ho, hm => by
    rw [List.nodup_cons] at ho
    have hmem : fid ∈ fields.map (fun f => f.id) := hm fid (List.mem_cons_self fid rest)
    have happly : applyOrder fields (fid :: rest) i =
        applyOrder (fields.map (fun f => if f.id = fid then { f with position := i } else f))
          rest (i + 1) := by
      rw [applyOrder, setPosFirst_eq fields fid i hn hmem]
    have hn2 : ((fields.map (fun f => if f.id = fid then { f with position := i } else f)).map
        (fun f => f.id)).Nodup := by rw [map_id_comp_if]; exact hn
    have hm2 : ∀ a ∈ rest, a ∈ (fields.map
        (fun f => if f.id = fid then { f with position := i } else f)).map (fun f => f.id) := by
      intro a ha
      rw [map_id_comp_if]
      exact hm a (List.mem_cons_of_mem fid ha)
    rw [happly, applyOrder_eq rest _ (i + 1) hn2 ho.2 hm2, List.map_map]
    refine congrArg (fun l => (l, true)) (List.map_congr_left (fun f _ => ?_))
    show applyFun rest (i + 1) (if f.id = fid then { f with position := i } else f) =
      applyFun (fid :: rest) i f
    by_cases hf : f.id = fid
    · rw [if_pos hf, applyFun, applyFun]
      have : ({ f with position := i } : LayoutField).id = f.id := rfl
      rw [if_neg (by rw [this, hf]; exact ho.1), if_pos (by rw [hf]; exact List.mem_cons_self fid rest)]
      rw [hf, List.indexOf_cons_self, Nat.add_zero]
    · rw [if_neg hf, applyFun, applyFun]
      by_cases hr : f.id ∈ rest
      · rw [if_pos hr, if_pos (List.mem_cons_of_mem fid hr),
          List.indexOf_cons_ne rest (fun e => hf e.symm)]
        show ({ f with position := i + 1 + rest.indexOf f.id } : LayoutField) =
          { f with position := i + (rest.indexOf f.id).succ }
        rw [Nat.succ_eq_add_one, Nat.add_comm (rest.indexOf f.id) 1, ← Nat.add_assoc]
      · rw [if_neg hr, if_neg (by
          rw [List.mem_cons]
          exact fun h => h.elim hf hr)]

theorem applyOrder_mem (f : LayoutField) :
    ∀ (order : List String) (fields : List LayoutField) (i : Nat),
      f ∈ fields → (∀ a ∈ order, f.id ≠ a) → f ∈ (applyOrder fields order i).1
  | [], fields, i, hf, _ => hf
  | fid :: rest, fields, i, hf, hno => by
    rw [applyOrder]
    cases hset : setPosFirst fields fid i with
    | none => exact hf
    | some fields2 =>
      refine applyOrder_mem f rest fields2 (i + 1) ?_
        (fun a ha => hno a (List.mem_cons_of_mem fid ha))
      induction fields generalizing fields2 with
      | nil => simp [setPosFirst] at hset
      | cons g rest2 ih =>
        rw [setPosFirst] at hset
        by_cases hg : g.id = fid
        · rw [if_pos hg] at hset
          cases hset
          rcases List.mem_cons.mp hf with he | hm
          · exact absurd (he ▸ hg) (hno fid (List.mem_cons_self fid rest))
          · exact List.mem_cons_of_mem _ hm
        · rw [if_neg hg] at hset
          cases hr : setPosFirst rest2 fid i with
          | none => rw [hr] at hset; cases hset
          | some l2 =>
            rw [hr, Option.map_some'] at hset
            cases hset
            rcases List.mem_cons.mp hf with he | hm
            · exact he ▸ List.mem_cons_self g l2
            · exact List.mem_cons_of_mem g (ih hm l2 hr)

theorem mem_of_mem_setPosFirst (g : LayoutField) (fid : String) (p : Nat)
    (hg : g.id ≠ fid) :
    ∀ (fields l : List LayoutField), setPosFirst fields fid p = some l →
      g ∈ l → g ∈ fields
  | [], l, hset, _ => by cases hset
  | f :: rest, l, hset, hmem => by
    rw [setPosFirst] at hset
    by_cases hf : f.id = fid
    · rw [if_pos hf] at hset
      cases hset
      rcases List.mem_cons.mp hmem with he | hm
      · exact absurd (congrArg LayoutField.id he ▸ hf) hg
      · exact List.mem_cons_of_mem f hm
    · rw [if_neg hf] at hset
      cases hr : setPosFirst rest fid p with
      | none => rw [hr] at hset; cases hset
      | some l2 =>
        rw [hr, Option.map_some'] at hset
        cases hset
        rcases List.mem_cons.mp hmem with he | hm
        · exact he ▸ List.mem_cons_self f rest
        · exact List.mem_cons_of_mem f (mem_of_mem_setPosFirst g fid p hg rest l2 hr hm)

theorem applyOrder_mem_rev (g : LayoutField) :
    ∀ (order : List String) (fields : List LayoutField) (i : Nat),
      g ∈ (applyOrder fields order i).1 → (∀ a ∈ order, g.id ≠ a) → g ∈ fields
  | [], fields, i, hg, _ => hg
  | fid :: rest, fields, i, hg, hno => by
    rw [applyOrder] at hg
    cases hset : setPosFirst fields fid i with
    | none => rw [hset] at hg; exact hg
    | some fields2 =>
      rw [hset] at hg
      exact mem_of_mem_setPosFirst g fid i (hno fid (List.mem_cons_self fid rest))
        fields fields2 hset
        (applyOrder_mem_rev g rest fields2 (i + 1) hg
          (fun a ha => hno a (List.mem_cons_of_mem fid ha)))

/-! ## Lemmas about sortedness and permutations -/

theorem eq_of_mem_of_id_eq {f g : LayoutField} :
    ∀ (l : List LayoutField), (l.map (fun x => x.id)).Nodup →
      f ∈ l → g ∈ l → f.id = g.id → f = g
  | [], _, hf, _, _ => absurd hf (List.not_mem_nil f)
  | a :: t, hn, hf, hg, hid => by
    rw [List.map_cons, List.nodup_cons] at hn
    rcases List.mem_cons.mp hf with he | hm
    · rcases List.mem_cons.mp hg with he2 | hm2
      · exact he.trans he2.symm
      · exact absurd (he ▸ hid ▸ List.mem_map_of_mem (fun x => x.id) hm2) hn.1
    · rcases List.mem_cons.mp hg with he2 | hm2
      · exact absurd (he2 ▸ hid ▸ List.mem_map_of_mem (fun x => x.id) hm) hn.1
      · exact eq_of_mem_of_id_eq t hn.2 hm hm2 hid

theorem map_indexOf_self :
    ∀ (l : List String), l.Nodup → l.map (fun a => l.indexOf a) = List.range l.length
  | [], _ => rfl
  | a :: t, hn => by
    rw [List.nodup_cons] at hn
    rw [List.map_cons, List.indexOf_cons_self, List.length_cons, List.range_succ_eq_map,
      ← map_indexOf_self t hn.2, List.map_map]
    refine congrArg _ (List.map_congr_left (fun x hx => ?_))
    have hax : a ≠ x := fun e => hn.1 (e ▸ hx)
    show (a :: t).indexOf x = (t.indexOf x).succ
    exact List.indexOf_cons_ne t hax

theorem eq_of_perm_of_sorted_posNodup :
    ∀ (l₁ l₂ : List LayoutField), l₁.Perm l₂ →
      l₁.Pairwise posLE → l₂.Pairwise posLE →
      (l₁.map (fun f => f.position)).Nodup → l₁ = l₂
  | [], l₂, hp, _, _, _ => (hp.symm.eq_nil).symm
  | a :: t₁, [], hp, _, _, _ => hp.eq_nil
  | a :: t₁, b :: t₂, hp, h₁, h₂, hn => by
    rw [List.pairwise_cons] at h₁ h₂
    rw [List.map_cons, List.nodup_cons] at hn
    have hab : a = b := by
      by_contra hne
      have ha2 : a ∈ t₂ := by
        rcases List.mem_cons.mp (hp.mem_iff.mp (List.mem_cons_self a t₁)) with he | hm
        · exact absurd he hne
        · exact hm
      have hb1 : b ∈ t₁ := by
        rcases List.mem_cons.mp (hp.mem_iff.mpr (List.mem_cons_self b t₂)) with he | hm
        · exact absurd he.symm hne
        · exact hm
      have hle1 : a.position ≤ b.position := h₁.1 b hb1
      have hle2 : b.position ≤ a.position := h₂.1 a ha2
      exact hn.1 ((Nat.le_antisymm hle1 hle2) ▸ List.mem_map_of_mem (fun f => f.position) hb1)
    subst hab
    rw [eq_of_perm_of_sorted_posNodup t₁ t₂ (hp.cons_inv) h₁.2 h₂.2 hn.2]

/-! ## Lemmas about swap_fields -/

theorem findField_unique (l : List LayoutField) (f : LayoutField) (a : String)
    (hn : (l.map (fun x => x.id)).Nodup) (hf : f ∈ l) (hid : f.id = a) :
    findField l a = some f := by
  induction l with
  | nil => exact absurd hf (List.not_mem_nil f)
  | cons g t ih =>
    rw [List.map_cons, List.nodup_cons] at hn
    by_cases hg : g.id = a
    · rw [findField, List.find?_cons_of_pos t (by simpa using hg)]
      rcases List.mem_cons.mp hf with he | hm
      · rw [he]
      · exfalso
        apply hn.1
        have hmm : f.id ∈ t.map (fun x => x.id) := List.mem_map_of_mem (fun x => x.id) hm
        rw [hid, ← hg] at hmm
        exact hmm
    · rw [findField, List.find?_cons_of_neg t (by simpa using hg)]
      rcases List.mem_cons.mp hf with he | hm
      · exact absurd (he ▸ hid) hg
      · exact ih hn.2 hm

theorem findField_none (l : List LayoutField) (a : String)
    (h : a ∉ l.map (fun x => x.id)) : findField l a = none := by
  rw [findField, List.find?_eq_none]
  intro f hf hba
  exact h (by
    rw [show a = f.id from (by simpa using hba : f.id = a).symm]
    exact List.mem_map_of_mem (fun x => x.id) hf)

theorem swapFn_id (a b : String) (pa pb : Nat) (f : LayoutField) :
    (swapFn a b pa pb f).id = f.id := by
  rw [swapFn]
  by_cases h : f.id = a
  · rw [if_pos h]
  · rw [if_neg h]
    by_cases h2 : f.id = b
    · rw [if_pos h2]
    · rw [if_neg h2]

theorem swapFn_app_a (a b : String) (pa pb : Nat) (f : LayoutField) (h : f.id = a) :
    swapFn a b pa pb f = { f with position := pb } := by
  rw [swapFn, if_pos h]

theorem swapFn_app_b (a b : String) (pa pb : Nat) (f : LayoutField)
    (h1 : ¬(f.id = a)) (h2 : f.id = b) :
    swapFn a b pa pb f = { f with position := pa } := by
  rw [swapFn, if_neg h1, if_pos h2]

theorem swapFn_app_other (a b : String) (pa pb : Nat) (f : LayoutField)
    (h1 : ¬(f.id = a)) (h2 : ¬(f.id = b)) :
    swapFn a b pa pb f = f := by
  rw [swapFn, if_neg h1, if_neg h2]

theorem swapInSection_eq (s : LayoutSection) (a b : String) (fa fb : LayoutField)
    (hn : (s.fields.map (fun x => x.id)).Nodup)
    (hfa : fa ∈ s.fields) (hida : fa.id = a)
    (hfb : fb ∈ s.fields) (hidb : fb.id = b) (hab : a ≠ b) :
    swapInSection s a b =
      some (withFields s (sortByPosition (s.fields.map (swapFn a b fa.position fb.position)))) := by
  have hma : a ∈ s.fields.map (fun x => x.id) :=
    hida ▸ List.mem_map_of_mem (fun x => x.id) hfa
  have hmb : b ∈ s.fields.map (fun x => x.id) :=
    hidb ▸ List.mem_map_of_mem (fun x => x.id) hfb
  have h1 := setPosFirst_eq s.fields a fb.position hn hma
  have hn2 : ((s.fields.map
      (fun f => if f.id = a then { f with position := fb.position } else f)).map
      (fun f => f.id)).Nodup := by
    rw [map_id_comp_if]
    exact hn
  have hmb2 : b ∈ (s.fields.map
      (fun f => if f.id = a then { f with position := fb.position } else f)).map
      (fun f => f.id) := by
    rw [map_id_comp_if]
    exact hmb
  have h2 := setPosFirst_eq (s.fields.map
    (fun f => if f.id = a then { f with position := fb.position } else f))
    b fa.position hn2 hmb2
  have hcomp : (s.fields.map
      (fun f => if f.id = a then { f with position := fb.position } else f)).map
      (fun f => if f.id = b then { f with position := fa.position } else f) =
      s.fields.map (swapFn a b fa.position fb.position) := by
    rw [List.map_map]
    refine List.map_congr_left (fun f _ => ?_)
    simp only [Function.comp_apply]
    by_cases h : f.id = a
    · rw [if_pos h,
        if_neg (show ¬(({ f with position := fb.position } : LayoutField).id = b) from
          fun e => hab (h.symm.trans e)),
        swapFn_app_a a b fa.position fb.position f h]
    · rw [if_neg h]
      by_cases h2 : f.id = b
      · rw [if_pos h2, swapFn_app_b a b fa.position fb.position f h h2]
      · rw [if_neg h2, swapFn_app_other a b fa.position fb.position f h h2]
  simp only [swapInSection, findField_unique s.fields fa a hn hfa hida,
    findField_unique s.fields fb b hn hfb hidb, h1, h2, hcomp, withFields]

theorem double_swap_num (s : LayoutSection) (a b : String)
    (hn : (s.fields.map (fun x => x.id)).Nodup)
    (hpos : (s.fields.map (fun x => x.position)).Nodup)
    (hsorted : s.fields.Pairwise posLE)
    (ha : a ∈ s.fields.map (fun x => x.id)) (hb : b ∈ s.fields.map (fun x => x.id))
    (hab : a ≠ b) :
    ∃ s1, swapInSection s a b = some s1 ∧ s1.name = s.name ∧
      swapInSection s1 a b = some s := by
  rcases List.mem_map.mp ha with ⟨fa, hfa, hida⟩
  rcases List.mem_map.mp hb with ⟨fb, hfb, hidb⟩
  refine ⟨withFields s (sortByPosition (s.fields.map (swapFn a b fa.position fb.position))),
    swapInSection_eq s a b fa fb hn hfa hida hfb hidb hab, rfl, ?_⟩
  have hperm1 : (sortByPosition (s.fields.map
      (swapFn a b fa.position fb.position))).Perm
      (s.fields.map (swapFn a b fa.position fb.position)) :=
    List.perm_insertionSort posLE _
  have hmapid : (s.fields.map (swapFn a b fa.position fb.position)).map
      (fun x => x.id) = s.fields.map (fun x => x.id) := by
    rw [List.map_map]
    exact List.map_congr_left (fun f _ => swapFn_id a b fa.position fb.position f)
  have hn1 : ((sortByPosition (s.fields.map
      (swapFn a b fa.position fb.position))).map (fun x => x.id)).Nodup := by
    refine ((hperm1.map (fun x => x.id)).nodup_iff).mpr ?_
    rw [hmapid]
    exact hn
  have hwfa : swapFn a b fa.position fb.position fa = { fa with position := fb.position } := by
    rw [swapFn, if_pos hida]
  have hwfb : swapFn a b fa.position fb.position fb = { fb with position := fa.position } := by
    rw [swapFn, if_neg (fun e => hab (hidb.symm.trans e).symm), if_pos hidb]
  have hmfa : ({ fa with position := fb.position } : LayoutField) ∈
      sortByPosition (s.fields.map (swapFn a b fa.position fb.position)) :=
    hperm1.mem_iff.mpr
      (hwfa ▸ List.mem_map_of_mem (swapFn a b fa.position fb.position) hfa)
  have hmfb : ({ fb with position := fa.position } : LayoutField) ∈
      sortByPosition (s.fields.map (swapFn a b fa.position fb.position)) :=
    hperm1.mem_iff.mpr
      (hwfb ▸ List.mem_map_of_mem (swapFn a b fa.position fb.position) hfb)
  have h2 := swapInSection_eq
    (withFields s (sortByPosition (s.fields.map (swapFn a b fa.position fb.position))))
    a b ({ fa with position := fb.position }) ({ fb with position := fa.position })
    hn1 hmfa hida hmfb hidb hab
  rw [h2]
  refine congrArg some ?_
  have hpt : ∀ f ∈ s.fields,
      swapFn a b fb.position fa.position (swapFn a b fa.position fb.position f) = f := by
    intro f hf
    by_cases h : f.id = a
    · have hffa : f = fa := eq_of_mem_of_id_eq s.fields hn hf hfa (h.trans hida.symm)
      have hpa : fa.position = f.position := congrArg (fun x => x.position) hffa.symm
      rw [swapFn_app_a a b fa.position fb.position f h,
        swapFn_app_a a b fb.position fa.position
          ({ f with position := fb.position })
          (show ({ f with position := fb.position } : LayoutField).id = a from h),
        hpa]
    · by_cases h2 : f.id = b
      · have hffb : f = fb := eq_of_mem_of_id_eq s.fields hn hf hfb (h2.trans hidb.symm)
        have hpb : fb.position = f.position := congrArg (fun x => x.position) hffb.symm
        rw [swapFn_app_b a b fa.position fb.position f h h2,
          swapFn_app_b a b fb.position fa.position
            ({ f with position := fa.position })
            (show ¬(({ f with position := fa.position } : LayoutField).id = a) from h)
            (show ({ f with position := fa.position } : LayoutField).id = b from h2),
          hpb]
      · rw [swapFn_app_other a b fa.position fb.position f h h2,
          swapFn_app_other a b fb.position fa.position f h h2]
  have hfieldsEq : sortByPosition
      ((sortByPosition (s.fields.map (swapFn a b fa.position fb.position))).map
        (swapFn a b fb.position fa.position)) = s.fields := by
    have hperm2 : ((sortByPosition (s.fields.map
        (swapFn a b fa.position fb.position))).map
        (swapFn a b fb.position fa.position)).Perm s.fields := by
      refine (hperm1.map (swapFn a b fb.position fa.position)).trans ?_
      rw [List.map_map,
        List.map_congr_left (fun f hf =>
          show (swapFn a b fb.position fa.position ∘ swapFn a b fa.position fb.position) f =
            (fun x => x) f from hpt f hf),
        List.map_id']
    have hperm4 : (sortByPosition
        ((sortByPosition (s.fields.map (swapFn a b fa.position fb.position))).map
          (swapFn a b fb.position fa.position))).Perm s.fields :=
      (List.perm_insertionSort posLE _).trans hperm2
    exact (eq_of_perm_of_sorted_posNodup s.fields _ hperm4.symm hsorted
      (List.sorted_insertionSort posLE _) hpos).symm
  show withFields
      (withFields s (sortByPosition (s.fields.map (swapFn a b fa.position fb.position))))
      (sortByPosition
        ((sortByPosition (s.fields.map (swapFn a b fa.position fb.position))).map
          (swapFn a b fb.position fa.position))) = s
  rw [hfieldsEq]
  rfl

theorem swap_fields_append (pre : List LayoutSection) (s s2 : LayoutSection)
    (post : List LayoutSection) (a b : String)
    (hpre : ∀ t ∈ pre, t.name ≠ s.name)
    (hswap : swapInSection s a b = some s2) :
    swap_fields (pre ++ s :: post) s.name a b = some (pre ++ s2 :: post) := by
  induction pre with
  | nil =>
    rw [List.nil_append, List.nil_append, swap_fields, if_pos rfl, hswap]
    rfl
  | cons t pre ih =>
    rw [List.cons_append, List.cons_append, swap_fields,
      if_neg (hpre t (List.mem_cons_self t pre)),
      ih (fun u hu => hpre u (List.mem_cons_of_mem t hu))]
    rfl

theorem swap_fields_error_append (pre : List LayoutSection) (s : LayoutSection)
    (post : List LayoutSection) (a b : String)
    (hpre : ∀ t ∈ pre, t.name ≠ s.name)
    (herr : swapInSection s a b = none) :
    swap_fields (pre ++ s :: post) s.name a b = none := by
  induction pre with
  | nil =>
    rw [List.nil_append, swap_fields, if_pos rfl, herr]
    rfl
  | cons t pre ih =>
    rw [List.cons_append, swap_fields,
      if_neg (hpre t (List.mem_cons_self t pre)),
      ih (fun u hu => hpre u (List.mem_cons_of_mem t hu))]
    rfl

theorem swapInSection_error (s : LayoutSection) (a b : String)
    (h : a ∉ s.fields.map (fun x => x.id) ∨ b ∉ s.fields.map (fun x => x.id)) :
    swapInSection s a b = none := by
  rcases h with h | h
  · rw [swapInSection, findField_none s.fields a h]
  · cases hfa : findField s.fields a with
    | none => rw [swapInSection, hfa]
    | some fa => rw [swapInSection, hfa, findField_none s.fields b h]

/-! ## Claim theorems: C10, C9, C3 -/

/-- C10: the two variant implementations construct identical seed layouts:
`RealDragDropEditor.load_original_layout` and
`SimpleDragEditor.load_original_layout` produce equal section lists, hence
they agree on every section's name, title, expanded flag and on every field's
id, label, value, field_type, visible and position. -/
theorem seed_layouts_identical : seed_sections_real = seed_sections_simple := rfl

/-- C9: from any editor state, `reset` produces exactly the seed layout
(Account Information with 24 fields, `account_name` at position 0 with value
"Steed Standard Transport Ltd."; Parent Hierarchy with 4 fields; Customer
Success with 12 fields of which `empty1..empty4` have empty labels and
`visible = false`) and clears the pending Mode-B selection to `none`. -/
theorem reset_reproduces_seed (st : EditorState) :
    reset st = ⟨seed_sections_simple, none⟩ ∧
    account_info_simple.fields.length = 24 ∧
    account_info_simple.fields.find? (fun f => f.id == "account_name") =
      some ⟨"account_name", "Account Name", "Steed Standard Transport Ltd.", "text", true, 0⟩ ∧
    parent_hierarchy_simple.fields.length = 4 ∧
    customer_success_simple.fields.length = 12 ∧
    (customer_success_simple.fields.filter (fun f => f.label == "")).map (fun f => f.id) =
      ["empty1", "empty2", "empty3", "empty4"] ∧
    (∀ f ∈ customer_success_simple.fields, f.label = "" → f.visible = false) := by
  refine ⟨rfl, ?_, ?_, ?_, ?_, ?_, ?_⟩ <;> decide

/-- Witness for C9 at a mutated state (empty layout, stale pending
selection): reset still reproduces the seed and clears the selection. -/
theorem reset_reproduces_seed_witness :
    reset ⟨[], some ("customer_success", "Customer Sentiment", "sentiment")⟩ =
      ⟨seed_sections_simple, none⟩ ∧
    account_info_simple.fields.length = 24 ∧
    account_info_simple.fields.find? (fun f => f.id == "account_name") =
      some ⟨"account_name", "Account Name", "Steed Standard Transport Ltd.", "text", true, 0⟩ ∧
    parent_hierarchy_simple.fields.length = 4 ∧
    customer_success_simple.fields.length = 12 ∧
    (customer_success_simple.fields.filter (fun f => f.label == "")).map (fun f => f.id) =
      ["empty1", "empty2", "empty3", "empty4"] ∧
    (∀ f ∈ customer_success_simple.fields, f.label = "" → f.visible = false) :=
  reset_reproduces_seed ⟨[], some ("customer_success", "Customer Sentiment", "sentiment")⟩

/-- C3 counterexample: in the reachable state hide(`parent_cad`) → drag
reorder → show(`parent_cad`), the visible listing of the Parent Hierarchy
section carries positions 0, 1, 1, 2 — two visible fields share position 1 —
so the listing is NOT strictly ascending by position, refuting the claim's
strictness for this section. -/
theorem visible_listing_not_strictly_sorted :
    ((visible_fields tiedParentSection).map (fun f => f.position)) = [0, 1, 1, 2] ∧
    ¬ (visible_fields tiedParentSection).Pairwise (fun a b => a.position < b.position) := by
  refine ⟨by decide, by decide⟩

/-- C3 amended: for every section, the visible-field listing contains no
field with an empty label and no field with `visible = false`, and is
ordered non-strictly ascending by position; it is strictly ascending
whenever the visible non-placeholder fields carry pairwise distinct
positions (ties between visible fields are possible after
hide → reorder → show, as the counterexample shows). -/
theorem visible_listing_sorted (S : LayoutSection) :
    (∀ f ∈ visible_fields S, f.visible = true ∧ f.label ≠ "") ∧
    (visible_fields S).Pairwise (fun a b => a.position ≤ b.position) ∧
    (((S.fields.filter visP).map (fun f => f.position)).Nodup →
      (visible_fields S).Pairwise (fun a b => a.position < b.position)) := by
  have hsorted : (visible_fields S).Pairwise posLE :=
    List.Pairwise.sublist (List.filter_sublist _)
      (List.sorted_insertionSort posLE S.fields)
  refine ⟨?_, ?_, ?_⟩
  · intro f hf
    have h := (List.mem_filter.mp hf).2
    rw [visP, Bool.and_eq_true] at h
    exact ⟨h.1, by simpa using h.2⟩
  · exact hsorted
  · intro hpos
    have hperm : (visible_fields S).Perm (S.fields.filter visP) :=
      List.Perm.filter visP (List.perm_insertionSort posLE S.fields)
    have hnod : ((visible_fields S).map (fun f => f.position)).Nodup :=
      ((hperm.map (fun f => f.position)).nodup_iff).mpr hpos
    have hne : (visible_fields S).Pairwise (fun a b => a.position ≠ b.position) :=
      List.pairwise_map.mp hnod
    exact (hsorted.and hne).imp (fun h => Nat.lt_of_le_of_ne h.1 h.2)

/-- Witness for the amended C3 at the seed Customer Success section, whose
visible positions are distinct, so the listing is even strictly ascending. -/
theorem visible_listing_sorted_witness :
    (∀ f ∈ visible_fields customer_success_simple, f.visible = true ∧ f.label ≠ "") ∧
    (visible_fields customer_success_simple).Pairwise
      (fun a b => a.position ≤ b.position) ∧
    (visible_fields customer_success_simple).Pairwise
      (fun a b => a.position < b.position) :=
  ⟨(visible_listing_sorted customer_success_simple).1,
    (visible_listing_sorted customer_success_simple).2.1,
    (visible_listing_sorted customer_success_simple).2.2 (by decide)⟩

/-! ## Claim theorems: C1, C2, C6 (Mode-A reorder) -/

/-- C1: for a section with duplicate-free field ids (and ids free of double
quotes, so that identity survives the render→parse round trip), applying
`update_field_order` to the rendered items of any permutation `fs` of the
visible fields succeeds without an exception and makes the visible-field
listing return exactly the ids of `fs` in the given order. -/
theorem reorder_then_list_gives_sequence (S : LayoutSection) (fs : List LayoutField)
    (hnd : (S.fields.map (fun f => f.id)).Nodup)
    (hq : ∀ f ∈ S.fields, '"' ∉ f.id.toList)
    (hperm : fs.Perm (visible_fields S)) :
    (update_field_order S (fs.map create_field_item)).2 = true ∧
    (visible_fields (update_field_order S (fs.map create_field_item)).1).map
        (fun f => f.id) = fs.map (fun f => f.id) := by
  have hsubS : ∀ f ∈ visible_fields S, f ∈ S.fields := fun f hf =>
    (List.perm_insertionSort posLE S.fields).mem_iff.mp ((List.mem_filter.mp hf).1)
  have hfsS : ∀ f ∈ fs, f ∈ S.fields := fun f hf => hsubS f (hperm.subset hf)
  have hq2 : ∀ f ∈ fs, '"' ∉ f.id.toList := fun f hf => hq f (hfsS f hf)
  have hext : extractOrder (fs.map create_field_item) = fs.map (fun f => f.id) :=
    extractOrder_map_create fs hq2
  have hsortnd : ((sortByPosition S.fields).map (fun f => f.id)).Nodup :=
    (((List.perm_insertionSort posLE S.fields).map (fun f => f.id)).nodup_iff).mpr hnd
  have hvnd : ((visible_fields S).map (fun f => f.id)).Nodup :=
    List.Nodup.sublist
      (List.Sublist.map (fun f => f.id) (List.filter_sublist (sortByPosition S.fields)))
      hsortnd
  have hfnd : (fs.map (fun f => f.id)).Nodup :=
    ((hperm.map (fun f => f.id)).nodup_iff).mpr hvnd
  have hmem : ∀ a ∈ fs.map (fun f => f.id), a ∈ S.fields.map (fun f => f.id) := by
    intro a ha
    rcases List.mem_map.mp ha with ⟨f, hf, rfl⟩
    exact List.mem_map_of_mem _ (hfsS f hf)
  have happ := applyOrder_eq (fs.map (fun f => f.id)) S.fields 0 hnd hfnd hmem
  have hupd : update_field_order S (fs.map create_field_item) =
      (reorderedSection S fs, true) := by
    rw [update_field_order, hext, happ]
    rfl
  rw [hupd]
  refine ⟨rfl, ?_⟩
  have hLsorted : (visible_fields (reorderedSection S fs)).Pairwise posLE :=
    List.Pairwise.sublist (List.filter_sublist _) (List.sorted_insertionSort posLE _)
  have hLperm : (visible_fields (reorderedSection S fs)).Perm
      ((S.fields.map (applyFun (fs.map (fun f => f.id)) 0)).filter visP) := by
    refine List.Perm.filter visP ?_
    exact (List.perm_insertionSort posLE _).trans (List.perm_insertionSort posLE _)
  have hFfilter : (S.fields.map (applyFun (fs.map (fun f => f.id)) 0)).filter visP =
      (S.fields.filter visP).map (applyFun (fs.map (fun f => f.id)) 0) := by
    rw [List.filter_map]
    congr 1
    refine List.filter_congr (fun f hf => ?_)
    show visP (applyFun (fs.map (fun g => g.id)) 0 f) = visP f
    rw [applyFun]
    by_cases h : f.id ∈ fs.map (fun g => g.id) <;> simp [h, visP]
  have hfilterfs : (S.fields.filter visP).Perm fs := by
    have h2 : (S.fields.filter visP).Perm (visible_fields S) :=
      (List.Perm.filter visP (List.perm_insertionSort posLE S.fields)).symm
    exact h2.trans hperm.symm
  have hLT : (visible_fields (reorderedSection S fs)).Perm
      (fs.map (applyFun (fs.map (fun f => f.id)) 0)) := by
    refine hLperm.trans ?_
    rw [hFfilter]
    exact hfilterfs.map (applyFun (fs.map (fun f => f.id)) 0)
  have hTpos : (fs.map (applyFun (fs.map (fun f => f.id)) 0)).map (fun f => f.position) =
      List.range fs.length := by
    have h1 : (fs.map (applyFun (fs.map (fun f => f.id)) 0)).map (fun f => f.position) =
        fs.map (fun f => (fs.map (fun g => g.id)).indexOf f.id) := by
      rw [List.map_map]
      exact List.map_congr_left (fun f hf => by
        show (applyFun (fs.map (fun g => g.id)) 0 f).position =
          (fs.map (fun g => g.id)).indexOf f.id
        rw [applyFun, if_pos (List.mem_map_of_mem (fun g => g.id) hf)]
        exact Nat.zero_add _)
    have h2 : fs.map (fun f => (fs.map (fun g => g.id)).indexOf f.id) =
        (fs.map (fun g => g.id)).map (fun a => (fs.map (fun g => g.id)).indexOf a) := by
      rw [List.map_map]
      exact rfl
    rw [h1, h2, map_indexOf_self (fs.map (fun g => g.id)) hfnd, List.length_map]
  have hTnodup : ((fs.map (applyFun (fs.map (fun f => f.id)) 0)).map
      (fun f => f.position)).Nodup := by
    rw [hTpos]
    exact (List.pairwise_lt_range _).imp Nat.ne_of_lt
  have hTsorted : (fs.map (applyFun (fs.map (fun f => f.id)) 0)).Pairwise posLE := by
    have h := List.pairwise_le_range fs.length
    rw [← hTpos] at h
    have h2 := List.pairwise_map.mp h
    exact h2
  have hfinal : fs.map (applyFun (fs.map (fun f => f.id)) 0) =
      visible_fields (reorderedSection S fs) :=
    eq_of_perm_of_sorted_posNodup _ _ hLT.symm hTsorted hLsorted hTnodup
  rw [← hfinal, List.map_map]
  refine List.map_congr_left (fun f hf => ?_)
  show (applyFun (fs.map (fun g => g.id)) 0 f).id = f.id
  rw [applyFun]
  by_cases h : f.id ∈ fs.map (fun g => g.id) <;> simp [h]

/-- Witness for C1: reordering the seed Parent Hierarchy section with its
visible fields reversed lists them back in exactly the reversed order. -/
theorem reorder_then_list_gives_sequence_witness :
    (update_field_order parent_hierarchy_real (revParentFields.map create_field_item)).2 = true ∧
    (visible_fields (update_field_order parent_hierarchy_real
        (revParentFields.map create_field_item)).1).map (fun f => f.id) =
      revParentFields.map (fun f => f.id) :=
  reorder_then_list_gives_sequence parent_hierarchy_real revParentFields
    (by decide) (by decide) (by decide)

/-- C2 counterexample: a reorder input for the seed Parent Hierarchy section
containing one item with no recoverable field identity (`junkItem`) is NOT
rejected: `update_field_order` completes without an error (flag `true`) and
the section's fields change, so the prior state is not retained and no
`MalformedReorderInput` failure is surfaced. -/
theorem malformed_reorder_not_rejected :
    (update_field_order parent_hierarchy_real
        (junkItem :: revParentFields.map create_field_item)).2 = true ∧
    (update_field_order parent_hierarchy_real
        (junkItem :: revParentFields.map create_field_item)).1 ≠ parent_hierarchy_real := by
  constructor
  · decide
  · decide

/-- C2 amended: an item from which no field identity can be recovered is
silently skipped by `update_field_order` rather than causing the reorder to
be rejected — the operation proceeds exactly as if the malformed item were
absent, applying the ids recovered from the remaining items, and surfaces no
error on account of the malformed item. -/
theorem malformed_item_silently_skipped (S : LayoutSection) (item : List Char)
    (items : List (List Char)) (h : extractFieldId item = none) :
    update_field_order S (item :: items) = update_field_order S items := by
  rw [update_field_order, update_field_order, extractOrder, extractOrder,
    List.filterMap_cons_none h]

/-- Witness for the amended C2 on the seed Parent Hierarchy section. -/
theorem malformed_item_silently_skipped_witness :
    update_field_order parent_hierarchy_real
        (junkItem :: revParentFields.map create_field_item) =
      update_field_order parent_hierarchy_real (revParentFields.map create_field_item) :=
  malformed_item_silently_skipped parent_hierarchy_real junkItem
    (revParentFields.map create_field_item) (by decide)

/-- C6: any field of a section with duplicate-free ids whose id does not
occur in the recovered reorder sequence — hidden fields and empty-label
placeholders never appear in the rendered input — survives
`update_field_order` untouched: the very same record (in particular its
position value) is still among the section's fields, and every field of the
result bearing that id still has the original position. -/
theorem reorder_keeps_absent_fields (S : LayoutSection) (items : List (List Char))
    (f : LayoutField) (hnd : (S.fields.map (fun g => g.id)).Nodup)
    (hf : f ∈ S.fields) (hno : f.id ∉ extractOrder items) :
    f ∈ (update_field_order S items).1.fields ∧
    ∀ g ∈ (update_field_order S items).1.fields, g.id = f.id → g.position = f.position := by
  have hno2 : ∀ a ∈ extractOrder items, f.id ≠ a := fun a ha e => hno (e ▸ ha)
  have hmem1 := applyOrder_mem f (extractOrder items) S.fields 0 hf hno2
  rcases hres : applyOrder S.fields (extractOrder items) 0 with ⟨fields2, ok⟩
  rw [hres] at hmem1
  have hfields : ((update_field_order S items).1.fields).Perm fields2 := by
    cases ok with
    | false =>
      rw [update_field_order, hres]
    | true =>
      rw [update_field_order, hres]
      exact List.perm_insertionSort posLE fields2
  constructor
  · exact (hfields.mem_iff).mpr hmem1
  · intro g hg hid
    have hg2 : g ∈ fields2 := (hfields.mem_iff).mp hg
    have hrev := applyOrder_mem_rev g (extractOrder items) S.fields 0
    rw [hres] at hrev
    have hg3 : g ∈ S.fields := hrev hg2 (fun a ha e => hno (by
      have hfa : f.id = a := hid ▸ e
      exact hfa.symm ▸ ha))
    exact congrArg (fun x => x.position) (eq_of_mem_of_id_eq S.fields hnd hg3 hf hid)

/-- Witness for C6: the hidden placeholder `empty1` of the seed Customer
Success section is untouched by a reorder listing the visible fields. -/
theorem reorder_keeps_absent_fields_witness :
    (⟨"empty1", "", "", "text", false, 5⟩ : LayoutField) ∈
      (update_field_order customer_success_real
        ((visible_fields customer_success_real).map create_field_item)).1.fields ∧
    ∀ g ∈ (update_field_order customer_success_real
        ((visible_fields customer_success_real).map create_field_item)).1.fields,
      g.id = (⟨"empty1", "", "", "text", false, 5⟩ : LayoutField).id →
        g.position = (⟨"empty1", "", "", "text", false, 5⟩ : LayoutField).position :=
  reorder_keeps_absent_fields customer_success_real
    ((visible_fields customer_success_real).map create_field_item)
    ⟨"empty1", "", "", "text", false, 5⟩ (by decide) (by decide) (by decide)

/-! ## Claim theorems: C4, C7 (swap) -/

/-- C4 counterexample: on the Customer Success section as it stands after a
Mode-A reorder (where the hidden placeholder `empty1` ties at position 5 with
the visible field `risk_severity`, and `empty1` precedes it in the list),
swapping the distinct existing ids `sentiment` and `risk_severity` twice does
NOT restore the section: every position value is restored, but the stable
re-sort has moved `risk_severity` in front of the equal-position `empty1`,
so the field order differs from the original. -/
theorem double_swap_changes_tied_order :
    swapFieldsTwice [customer_after_reorder] "customer_success"
        "sentiment" "risk_severity" ≠ some [customer_after_reorder] ∧
    ("sentiment" : String) ≠ "risk_severity" ∧
    "sentiment" ∈ customer_after_reorder.fields.map (fun f => f.id) ∧
    "risk_severity" ∈ customer_after_reorder.fields.map (fun f => f.id) := by
  refine ⟨?_, ?_, ?_, ?_⟩ <;> decide

/-- C4 amended: for a section whose field ids are duplicate-free, whose
position values are pairwise distinct (no hidden/visible position ties) and
whose field list is sorted by position, swapping two distinct existing ids
twice with `swap_fields` restores the section list exactly (the section is
addressed as the first one bearing its name). -/
theorem double_swap_restores_when_positions_distinct
    (pre post : List LayoutSection) (s : LayoutSection) (a b : String)
    (hpre : ∀ t ∈ pre, t.name ≠ s.name)
    (hn : (s.fields.map (fun x => x.id)).Nodup)
    (hpos : (s.fields.map (fun x => x.position)).Nodup)
    (hsorted : s.fields.Pairwise posLE)
    (ha : a ∈ s.fields.map (fun x => x.id)) (hb : b ∈ s.fields.map (fun x => x.id))
    (hab : a ≠ b) :
    swapFieldsTwice (pre ++ s :: post) s.name a b = some (pre ++ s :: post) := by
  obtain ⟨s1, h1, hname, h2⟩ := double_swap_num s a b hn hpos hsorted ha hb hab
  rw [swapFieldsTwice, swap_fields_append pre s s1 post a b hpre h1, Option.some_bind]
  have hpre1 : ∀ t ∈ pre, t.name ≠ s1.name := fun t ht => hname ▸ hpre t ht
  have := swap_fields_append pre s1 s post a b hpre1 h2
  rw [hname] at this
  exact this

/-- Witness for the amended C4: double swap of `account_name` and `type` on
the seed layout restores it. -/
theorem double_swap_restores_witness :
    swapFieldsTwice seed_sections_simple "account_info" "account_name" "type" =
      some seed_sections_simple :=
  double_swap_restores_when_positions_distinct []
    [parent_hierarchy_simple, customer_success_simple] account_info_simple
    "account_name" "type" (by simp) (by decide) (by decide) (by decide)
    (by decide) (by decide) (by decide)

/-- C7 counterexample: a swap naming a section that does not exist is a
silent no-op — `swap_fields` completes without raising, returns the section
list unchanged, and surfaces no error to the caller, contradicting the claim
that it fails with `NotFound`. -/
theorem swap_missing_section_silent :
    swap_fields seed_sections_simple "missing_section" "account_name" "type" =
      some seed_sections_simple ∧
    swap_fields seed_sections_simple "missing_section" "account_name" "type" ≠ none := by
  refine ⟨by decide, ?_⟩
  rw [show swap_fields seed_sections_simple "missing_section" "account_name" "type" =
    some seed_sections_simple by decide]
  simp

/-- C7 amended: when no section bears the given name, `swap_fields` silently
returns every section unchanged with no error; when the named section exists
(as the first match) but either field id does not resolve in it, the
operation raises (`none`, the uncaught `StopIteration`), and since the raise
happens before any assignment, no field is mutated. -/
theorem swap_not_found_behaviour :
    (∀ (secs : List LayoutSection) (name a b : String),
      (∀ s ∈ secs, s.name ≠ name) → swap_fields secs name a b = some secs) ∧
    (∀ (pre post : List LayoutSection) (s : LayoutSection) (a b : String),
      (∀ t ∈ pre, t.name ≠ s.name) →
      (a ∉ s.fields.map (fun x => x.id) ∨ b ∉ s.fields.map (fun x => x.id)) →
      swap_fields (pre ++ s :: post) s.name a b = none) := by
  constructor
  · intro secs name a b h
    induction secs with
    | nil => rfl
    | cons t rest ih =>
      rw [swap_fields, if_neg (h t (List.mem_cons_self t rest)),
        ih (fun u hu => h u (List.mem_cons_of_mem t hu))]
      rfl
  · intro pre post s a b hpre hmiss
    exact swap_fields_error_append pre s post a b hpre (swapInSection_error s a b hmiss)

/-- Witness for the amended C7: a missing section name is a silent no-op on
the seed layout, and a missing field id in an existing section raises. -/
theorem swap_not_found_behaviour_witness :
    swap_fields seed_sections_simple "no_such_section" "account_name" "type" =
      some seed_sections_simple ∧
    swap_fields seed_sections_simple "account_info" "account_name" "no_such_field" =
      none :=
  ⟨swap_not_found_behaviour.1 seed_sections_simple "no_such_section"
      "account_name" "type" (by decide),
    swap_not_found_behaviour.2 []
      [parent_hierarchy_simple, customer_success_simple] account_info_simple
      "account_name" "no_such_field" (by simp) (Or.inr (by decide))⟩

/-! ## Claim theorems: C5, C8 (Mode-B selection) -/

/-- C5 counterexample: with `account_name` pending and its own drag handle
clicked again, the handler does NOT clear the selection to none — it
re-records the very same pending selection (the deselect toggle described by
the spec does not exist in the code); no swap is performed. -/
theorem reselect_same_field_not_deselected :
    handle_drag_click seed_sections_simple
        (some ("account_info", "Account Name", "account_name")) "account_info"
        ⟨"account_name", "Account Name", "Steed Standard Transport Ltd.", "text", true, 0⟩ =
      some (seed_sections_simple, some ("account_info", "Account Name", "account_name")) ∧
    (some ("account_info", "Account Name", "account_name") : Selection) ≠ none := by
  refine ⟨by decide, by simp⟩

/-- C5 amended: when the pending selection names the same section and the
same field id as the clicked handle, the handler performs no swap and leaves
the selection pending on that same field (it is re-recorded as
`(section.name, field.label, field.id)`, not cleared). -/
theorem reselect_same_field_rerecords (sections : List LayoutSection)
    (sname lbl : String) (field : LayoutField) :
    handle_drag_click sections (some (sname, lbl, field.id)) sname field =
      some (sections, some (sname, field.label, field.id)) := by
  rw [handle_drag_click, if_neg (fun hc => hc.2 rfl)]

/-- Witness for the amended C5 at the seed layout's `account_name` field. -/
theorem reselect_same_field_rerecords_witness :
    handle_drag_click seed_sections_simple
        (some ("account_info", "Account Name",
          (⟨"account_name", "Account Name", "Steed Standard Transport Ltd.", "text", true, 0⟩
            : LayoutField).id)) "account_info"
        ⟨"account_name", "Account Name", "Steed Standard Transport Ltd.", "text", true, 0⟩ =
      some (seed_sections_simple, some ("account_info", "Account Name", "account_name")) :=
  reselect_same_field_rerecords seed_sections_simple "account_info" "Account Name"
    ⟨"account_name", "Account Name", "Steed Standard Transport Ltd.", "text", true, 0⟩

/-- C8: when a selection is pending in one section and the user clicks a
field handle in a different section, the pending selection is replaced by
the new field `(section.name, field.label, field.id)`, no swap is invoked,
and the section list — hence every field's position — is unchanged. -/
theorem select_other_section_replaces_pending (sections : List LayoutSection)
    (s1name lbl fid s2name : String) (field : LayoutField)
    (hne : s1name ≠ s2name) :
    handle_drag_click sections (some (s1name, lbl, fid)) s2name field =
      some (sections, some (s2name, field.label, field.id)) := by
  rw [handle_drag_click, if_neg (fun hc => hne hc.1)]

/-- Witness for C8: pending selection in Account Information, click on
`parent_us` in Parent Hierarchy. -/
theorem select_other_section_replaces_pending_witness :
    handle_drag_click seed_sections_simple
        (some ("account_info", "Account Name", "account_name")) "parent_hierarchy"
        ⟨"parent_us", "Parent Account TMW US", "", "text", true, 0⟩ =
      some (seed_sections_simple,
        some ("parent_hierarchy", "Parent Account TMW US", "parent_us")) :=
  select_other_section_replaces_pending seed_sections_simple "account_info"
    "Account Name" "account_name" "parent_hierarchy"
    ⟨"parent_us", "Parent Account TMW US", "", "text", true, 0⟩ (by decide)

end SalesforceLayout
